import Mathlib

/-!
Verification of the client script `static/app.js` of the personal
library manager.  The script's pure helpers are embedded as Lean
functions on `String`/`List Char`; DOM state touched by the handlers
(table rows, their `data-*` attributes, cell `innerHTML`, the editing
class) is embedded as explicit structures, and each event handler is a
function on that state.  `fetch` calls are embedded as emitted
`Request` values; the `.then`/`.catch` continuations of each fetch are
embedded as functions from an abstract outcome to the list of effects
the source performs.
-/

/-- Character code 39, the apostrophe.  Named so it can be used without
a character literal. -/
def aposChar : Char := Char.ofNat 39

/-- JavaScript `String.prototype.toLowerCase` restricted to the ASCII
range, which is all this application's data uses. -/
def jsToLower (s : String) : String := ⟨s.data.map Char.toLower⟩

/-- Does the first list occur at the head of the second?  Used to build
the substring test below. -/
def leadsList : List Char → List Char → Bool
  | [], _ => true
  | _ :: _, [] => false
  | a :: as, b :: bs => a == b && leadsList as bs

/-- `listIncludes needle hay` is JavaScript `hay.includes(needle)`:
does `needle` occur contiguously anywhere in `hay`? -/
def listIncludes (needle : List Char) : List Char → Bool
  | [] => leadsList needle []
  | c :: t => leadsList needle (c :: t) || listIncludes needle t

/-- JavaScript `hay.includes(needle)` on strings. -/
def jsIncludes (hay needle : String) : Bool := listIncludes needle.data hay.data

/-- JavaScript `a || b` where `a` is a string-or-undefined dataset read
and `b` is a string: the empty string and `undefined` are falsy. -/
def jsOrStr (a : Option String) (b : String) : String :=
  match a with
  | some v => if v = "" then b else v
  | none => b

/-- JavaScript template-string rendering of a string-or-undefined
value: `undefined` prints as "undefined". -/
def jsStringOf (a : Option String) : String :=
  match a with
  | some v => v
  | none => "undefined"

/-- JavaScript template-string rendering of a boolean. -/
def jsBoolStr (b : Bool) : String := if b then "true" else "false"

/-- Model of the DOM `textContent` getter on a cell, for the markup
shapes this table uses: every `<...>` tag is dropped and the remaining
text kept.  The flag records whether the scanner is inside a tag. -/
def textContentAux : Bool → List Char → List Char
  | _, [] => []
  | _, '<' :: t => textContentAux true t
  | true, '>' :: t => textContentAux false t
  | true, _ :: t => textContentAux true t
  | false, c :: t => c :: textContentAux false t

/-- Model of the DOM `textContent` getter on an `innerHTML` string. -/
def textContent (s : String) : String := ⟨textContentAux false s.data⟩

/-- `app.js` lines 41-44: `normalizeIsbn(s)` returns the empty string
for a falsy argument (`null`, `undefined`, the empty string) and
otherwise strips every non-digit character. -/
def normalizeIsbn (s : Option String) : String :=
  match s with
  | none => ""
  | some v => if v = "" then "" else ⟨v.data.filter (fun c => c.isDigit)⟩

/-- One pass of JavaScript `str.replace(/c/g, rep)`: every occurrence
of the character `c` is replaced by the string `rep`. -/
def replList (c : Char) (rep : List Char) (l : List Char) : List Char :=
  l.flatMap (fun x => if x = c then rep else [x])

/-- `app.js` lines 361-368: the body of `escapeHtml` on the character
list, written as the source writes it: five sequential global
character replacements, `&` first. -/
def escapeList (l : List Char) : List Char :=
  replList '>' "&gt;".data
    (replList '<' "&lt;".data
      (replList aposChar "&#39;".data
        (replList '"' "&quot;".data
          (replList '&' "&amp;".data l))))

/-- `app.js` lines 361-368: `escapeHtml`. -/
def escapeHtml (str : String) : String := ⟨escapeList str.data⟩

/-- The per-character view of `escapeHtml`: what a single character of
the input becomes in the output. -/
def escCharL (c : Char) : List Char :=
  if c = '&' then "&amp;".data
  else if c = '"' then "&quot;".data
  else if c = aposChar then "&#39;".data
  else if c = '<' then "&lt;".data
  else if c = '>' then "&gt;".data
  else [c]

/-- Decoder of the five HTML entities `escapeHtml` emits; every other
character is passed through unchanged. -/
def unescapeChars : List Char → List Char
  | [] => []
  | '&' :: 'a' :: 'm' :: 'p' :: ';' :: r => '&' :: unescapeChars r
  | '&' :: 'q' :: 'u' :: 'o' :: 't' :: ';' :: r => '"' :: unescapeChars r
  | '&' :: '#' :: '3' :: '9' :: ';' :: r => aposChar :: unescapeChars r
  | '&' :: 'l' :: 't' :: ';' :: r => '<' :: unescapeChars r
  | '&' :: 'g' :: 't' :: ';' :: r => '>' :: unescapeChars r
  | c :: r => c :: unescapeChars r

/-- A chunk of escaped output is good when it is one of the five
entities `escapeHtml` emits, or a single character that is none of the
five characters `escapeHtml` escapes. -/
def goodChunk (l : List Char) : Bool :=
  l == "&amp;".data || l == "&quot;".data || l == "&#39;".data ||
  l == "&lt;".data || l == "&gt;".data ||
  (match l with
   | [c] => !(c = '&' || c = '"' || c = aposChar || c = '<' || c = '>')
   | _ => false)

/-- A table row as the script sees it: the `data-*` attributes (absent
attributes are `none`), the checked state of a `.gift-toggle` input if
the row has one, the `innerHTML` of each cell, the inline `display`
style, whether the row has the `editing` class, and the
`_originalValues` expando captured by `enableEditing`. -/
structure Row where
  dtitle : Option String
  dauthors : Option String
  dtags : Option String
  dgiftFrom : Option String
  dlive : Option String
  disbn : Option String
  did : Option String
  giftToggle : Option Bool
  cells : List String
  display : String
  editing : Bool
  origVals : Option (List String)
deriving DecidableEq

/-- A `fetch` call: HTTP method, URL, and optional request body. -/
structure Request where
  method : String
  url : String
  body : Option String
deriving DecidableEq

/-- The query string `filterRows` computes, `app.js` line 163:
`searchInput ? searchInput.value.trim().toLowerCase() : ''`. -/
def queryOf (search : Option String) : String :=
  (search.map (fun v => jsToLower v.trim)).getD ""

/-- The per-row body of the `forEach` in `filterRows`, `app.js` lines
165-177: the row's `display` style becomes the empty string when the
row passes both the search and the live-only filter, `"none"`
otherwise. -/
def filterRow (query : String) (liveOnlyB : Bool) (row : Row) : Row :=
  let title := jsToLower (row.dtitle.getD "")
  let authors := jsToLower (row.dauthors.getD "")
  let tags := jsToLower (row.dtags.getD "")
  let isLive := jsToLower (row.dlive.getD "") == "true"
  let matchesQuery := query == "" || jsIncludes title query ||
    jsIncludes authors query || jsIncludes tags query
  let passesLiveFilter := !liveOnlyB || isLive
  if matchesQuery && passesLiveFilter then
    { row with display := "" }
  else
    { row with display := "none" }

/-- `app.js` lines 162-178: `filterRows`.  `search` is the value of
`#search-input` when that element exists, `liveOnly` the checked state
of `#live-only` when it exists.  Returns the rows with their `display`
style updated, paired with the `fetch` calls the function issues: the
body contains none. -/
def filterRows (search : Option String) (liveOnly : Option Bool)
    (rows : List Row) : List Row × List Request :=
  (rows.map (filterRow (queryOf search) (liveOnly.getD false)), [])

/-- A row with its `display` style blanked, used to state that
filtering changes nothing but `display`. -/
def eraseDisplay (r : Row) : Row := { r with display := "" }

/-- Upper-case hexadecimal digit for a value below 16. -/
def hexDigitChar (n : Nat) : Char :=
  if n < 10 then Char.ofNat (48 + n) else Char.ofNat (55 + n)

/-- The UTF-8 bytes of a code point, as natural numbers. -/
def utf8Bytes (n : Nat) : List Nat :=
  if n < 128 then [n]
  else if n < 2048 then [192 + n / 64, 128 + n % 64]
  else if n < 65536 then [224 + n / 4096, 128 + (n / 64) % 64, 128 + n % 64]
  else [240 + n / 262144, 128 + (n / 4096) % 64, 128 + (n / 64) % 64, 128 + n % 64]

/-- Percent-escape of one byte, upper-case hex. -/
def percentByte (b : Nat) : List Char := ['%', hexDigitChar (b / 16), hexDigitChar (b % 16)]

/-- The characters `encodeURIComponent` leaves unescaped. -/
def isUnreservedURI (c : Char) : Bool :=
  c.isAlpha || c.isDigit || c = '-' || c = '_' || c = '.' || c = '!' ||
  c = '~' || c = '*' || c = aposChar || c = '(' || c = ')'

/-- Model of the JavaScript global `encodeURIComponent`: unreserved
characters pass through, everything else is percent-encoded byte by
byte in UTF-8. -/
def encodeURIComponent (s : String) : String :=
  ⟨s.data.flatMap (fun c =>
    if isUnreservedURI c then [c] else (utf8Bytes c.toNat).flatMap percentByte)⟩

/-- One character of the `application/x-www-form-urlencoded` serializer
used by `URLSearchParams.toString`: space becomes `+`, alphanumerics
and `*-._` pass through, everything else is percent-encoded. -/
def formEncodeChar (c : Char) : List Char :=
  if c = ' ' then ['+']
  else if c.isAlphanum || c = '*' || c = '-' || c = '.' || c = '_' then [c]
  else (utf8Bytes c.toNat).flatMap percentByte

/-- `URLSearchParams` serialization of one value. -/
def formEncode (s : String) : String := ⟨s.data.flatMap formEncodeChar⟩

/-- The normalized ISBN of a row, exactly as the scan handler computes
it: `normalizeIsbn(row.dataset.isbn || '')`. -/
def rowNormIsbn (r : Row) : String := normalizeIsbn (some (jsOrStr r.disbn ""))

/-- The match test of `app.js` lines 78-81: a row matches when its
normalized ISBN and the normalized scan are both non-empty and equal. -/
def scanMatches (scanned : String) (r : Row) : Bool :=
  rowNormIsbn r != "" && scanned != "" && rowNormIsbn r == scanned

/-- `app.js` lines 76-82: the `forEach` keeps overwriting `matched`, so
the final value is the last matching row. -/
def lastMatch (scanned : String) (rows : List Row) : Option Row :=
  rows.foldl (fun matched row => if scanMatches scanned row then some row else matched) none

/-- What the default scan branch does with a decoded barcode: whether
it wrote the Add form's ISBN input (and what), whether it stopped the
scanner, the fetch calls it issued, and the message it showed. -/
structure DecodeResult where
  isbnField : Option String
  stopped : Bool
  requests : List Request
  message : Option String
deriving DecidableEq

/-- `app.js` lines 70-112: the default `onDecoded` behaviour of
`startScanner`.  A matching row leads to a POST of that row's raw
`data-isbn` to `/read_by_isbn`; otherwise the raw decoded text is
written into the Add form's ISBN input and a message is shown. -/
def defaultOnDecoded (decodedText : String) (rows : List Row) : DecodeResult :=
  let scanned := normalizeIsbn (some decodedText)
  match lastMatch scanned rows with
  | some matched =>
      { isbnField := none
        stopped := true
        requests := [{ method := "POST", url := "/read_by_isbn",
                       body := some ("isbn=" ++ encodeURIComponent (jsOrStr matched.disbn "")) }]
        message := none }
  | none =>
      { isbnField := some decodedText
        stopped := true
        requests := []
        message := some "Scanned ISBN not found in your library — filled Add form." }

/-- The values sitting in the inline-edit inputs when Save is clicked. -/
structure EditVals where
  title : String
  authors : String
  tags : String
  giftFrom : String
  isGift : Bool
deriving DecidableEq

/-- The body `URLSearchParams` builds in the Save handler, `app.js`
lines 311-316 and 321. -/
def saveBody (v : EditVals) : String :=
  "title=" ++ formEncode v.title.trim ++
  "&authors=" ++ formEncode v.authors.trim ++
  "&tags=" ++ formEncode v.tags.trim ++
  "&gift_from=" ++ formEncode v.giftFrom.trim ++
  "&is_gift=" ++ jsBoolStr v.isGift

/-- Every event a listener in `app.js` is wired to.  The row index is
the position of the `<tr>` the control sits in; Save carries the
current values of the edit inputs; the scan events carry the decoded
barcode text. -/
inductive Event where
  | defaultScanDecoded (decodedText : String)
  | scanMarkReadDecoded (decodedText : String)
  | liveToggleChanged (rowIdx : Nat) (newState : Bool)
  | markReadClicked (rowIdx : Nat)
  | saveEditClicked (rowIdx : Nat) (vals : EditVals)
  | searchInputEvent
  | liveOnlyChanged
  | editClicked (rowIdx : Nat)
  | cancelClicked (rowIdx : Nat)
  | startScanClicked
  | stopScanClicked
  | giftCheckboxChanged
deriving DecidableEq

/-- The `fetch` calls each handler issues, read off the five `fetch`
occurrences in `app.js` (lines 88, 194, 210, 226, 318); every other
handler contains no `fetch`. -/
def requestsOf (e : Event) (rows : List Row) : List Request :=
  match e with
  | .defaultScanDecoded t => (defaultOnDecoded t rows).requests
  | .scanMarkReadDecoded t =>
      [{ method := "POST", url := "/read_by_isbn",
         body := some ("isbn=" ++ encodeURIComponent t) }]
  | .liveToggleChanged i b =>
      match rows.get? i with
      | some r => [{ method := "POST", url := "/update/" ++ jsStringOf r.did,
                     body := some ("is_live=" ++ jsBoolStr b) }]
      | none => []
  | .markReadClicked i =>
      match rows.get? i with
      | some r => [{ method := "POST", url := "/read/" ++ jsStringOf r.did, body := none }]
      | none => []
  | .saveEditClicked i v =>
      match rows.get? i with
      | some r => [{ method := "POST", url := "/update/" ++ jsStringOf r.did,
                     body := some (saveBody v) }]
      | none => []
  | _ => []

/-- How a `fetch` settles: a resolved response with `ok` true, a
resolved response with `ok` false (carrying the response text), or a
rejected promise (network error). -/
inductive Outcome where
  | ok (txt : String)
  | notOk (txt : String)
  | netErr
deriving DecidableEq

/-- Everything a fetch continuation in `app.js` does. -/
inductive Effect where
  | showMessage (msg : String)
  | reload
  | setRowLive (rowIdx : Nat) (v : String)
  | refilter
deriving DecidableEq

/-- An effect is only a user-visible message or a page reload. -/
def benignEffect : Effect → Bool
  | .showMessage _ => true
  | .reload => true
  | _ => false

/-- `app.js` lines 92-103 and 230-241 (the two `/read_by_isbn` fetches
carry textually identical continuations): ok reloads, a failed
response or a network error shows a message. -/
def readByIsbnCont : Outcome → List Effect
  | .ok _ => [.reload]
  | .notOk txt => [.showMessage ("Failed to mark as read: " ++ txt)]
  | .netErr => [.showMessage "Network error while marking read."]

/-- `app.js` lines 198-203: the live-toggle fetch has a single `.then`
and no `.catch` and never reads `resp.ok`, so any resolved response —
ok or not — updates `data-live` and re-filters, and a rejected fetch
does nothing at all. -/
def liveToggleCont (i : Nat) (newState : Bool) : Outcome → List Effect
  | .ok _ => [.setRowLive i (jsBoolStr newState), .refilter]
  | .notOk _ => [.setRowLive i (jsBoolStr newState), .refilter]
  | .netErr => []

/-- `app.js` lines 210-213: the mark-read fetch reloads on any
resolved response and does nothing on a rejected fetch. -/
def markReadCont : Outcome → List Effect
  | .ok _ => [.reload]
  | .notOk _ => [.reload]
  | .netErr => []

/-- `app.js` lines 322-331: the Save fetch reloads when ok and shows a
message otherwise. -/
def saveEditCont : Outcome → List Effect
  | .ok _ => [.reload]
  | .notOk _ => [.showMessage "Failed to save changes."]
  | .netErr => [.showMessage "An error occurred while saving changes."]

/-- `app.js` lines 198-203 as a state transformer: the `.then` callback
of the live-toggle fetch sets the row's `data-live` from the checkbox
state and re-runs `filterRows` over the whole table. -/
def liveToggleThen (i : Nat) (newState : Bool) (search : Option String)
    (liveOnly : Option Bool) (rows : List Row) : List Row :=
  let rows1 :=
    match rows.get? i with
    | some r => rows.set i { r with dlive := some (jsBoolStr newState) }
    | none => rows
  (filterRows search liveOnly rows1).1

/-- The `innerHTML` `enableEditing` writes into a text cell, `app.js`
lines 279-287. -/
def editInputHtml (cls val : String) : String :=
  "<input type=\"text\" class=\"" ++ cls ++ "\" value=\"" ++ escapeHtml val ++ "\">"

/-- The `innerHTML` `enableEditing` writes into the gift cell, `app.js`
line 289. -/
def giftCheckboxHtml (isGift : Bool) : String :=
  "<input type=\"checkbox\" class=\"edit-gift-toggle\" " ++
  (if isGift then "checked" else "") ++ ">"

/-- The actions cell after `enableEditing` empties it and appends the
Save and Cancel buttons, `app.js` lines 292-300. -/
def actionsEditHtml : String :=
  "<button class=\"save-edit\">Save</button><button class=\"cancel-edit\">Cancel</button>"

/-- The page state the editing logic touches: the table rows and the
`editingRow` variable (as the index of the row it points at). -/
structure EditState where
  rows : List Row
  editingRow : Option Nat
deriving DecidableEq

/-- `app.js` lines 348-350: `originalValues.forEach((html, idx) =>
cells[idx].innerHTML = html)` — the first `originalValues.length`
cells are overwritten, the rest keep their content.  (When
`originalValues` is longer than the cell list the source would throw;
that case never arises because the values were captured from the same
cells.) -/
def restoreCells : List String → List String → List String
  | cs, [] => cs
  | [], _ :: _ => []
  | _ :: cs, v :: os => v :: restoreCells cs os

/-- The row as `cancelEditing` rewrites it: captured cell HTML
restored, `editing` class removed. -/
def cancelledRow (r : Row) : Row :=
  { r with cells := restoreCells r.cells (r.origVals.getD []), editing := false }

/-- `app.js` lines 342-353: `cancelEditing` is a no-op on a row without
the `editing` class; otherwise it restores the captured cell HTML,
removes the class and clears `editingRow`. -/
def cancelEditing (i : Nat) (s : EditState) : EditState :=
  match s.rows.get? i with
  | none => s
  | some r =>
      if r.editing then
        { rows := s.rows.set i (cancelledRow r), editingRow := none }
      else s

/-- `app.js` lines 254-258, the first step of `enableEditing`: when a
different row is currently being edited, cancel it first. -/
def preCancel (i : Nat) (s : EditState) : EditState :=
  match s.editingRow with
  | some j => if j ≠ i then cancelEditing j s else s
  | none => s

/-- `app.js` lines 266-300, the cell rewriting of `enableEditing`:
cells 0, 2, 3, 5 and 6 become inputs populated from the dataset (or,
when the dataset value is falsy, the cell's text), cell 8 becomes the
Save/Cancel buttons. -/
def editedCells (r : Row) : List String :=
  (((((r.cells.set 0 (editInputHtml "edit-title"
        (jsOrStr r.dtitle (textContent (r.cells.getD 0 ""))))
    ).set 2 (editInputHtml "edit-authors"
        (jsOrStr r.dauthors (textContent (r.cells.getD 2 ""))))
    ).set 3 (editInputHtml "edit-tags"
        (jsOrStr r.dtags (textContent (r.cells.getD 3 ""))))
    ).set 5 (editInputHtml "edit-gift-from"
        (jsOrStr r.dgiftFrom (textContent (r.cells.getD 5 ""))))
    ).set 6 (giftCheckboxHtml (r.giftToggle.getD false))
    ).set 8 actionsEditHtml

/-- The row after `enableEditing` has processed it: the `editing` class
added, the previous cell HTML captured in `_originalValues`, the cells
replaced by edit controls. -/
def editedRow (r : Row) : Row :=
  { r with editing := true, origVals := some r.cells, cells := editedCells r }

/-- `app.js` lines 253-337: `enableEditing`.  A different row being
edited is cancelled first (`preCancel`); a row already in editing mode
is left alone; otherwise the row becomes `editedRow` and `editingRow`
points at it.  The source dereferences `cells[8]`, so on a row with
fewer than nine cells it throws; that is the `none` result. -/
def enableEditing (i : Nat) (s : EditState) : Option EditState :=
  let s1 := preCancel i s
  match s1.rows.get? i with
  | none => none
  | some r =>
      if r.editing then some s1
      else if 9 ≤ r.cells.length then
        some { rows := s1.rows.set i (editedRow r), editingRow := some i }
      else none

/-- Does the row at index `k` carry the `editing` class? -/
def hasEditingAt (rows : List Row) (k : Nat) : Bool :=
  match rows.get? k with
  | some r => r.editing
  | none => false

/-- How many rows carry the `editing` class. -/
def editCount (rows : List Row) : Nat := rows.countP (fun r => r.editing)

/-- The editing invariant: when `editingRow` is null no row carries the
`editing` class; when it points at a row, that row carries the class
and is the only one that does. -/
def editInv (s : EditState) : Bool :=
  match s.editingRow with
  | none => editCount s.rows == 0
  | some k => hasEditingAt s.rows k && editCount s.rows == 1

/-- A concrete table row used by the witnesses. -/
def sampleRow : Row :=
  { dtitle := some "Goodnight Moon"
    dauthors := some "Margaret Wise Brown"
    dtags := some "bedtime"
    dgiftFrom := some "Grandma"
    dlive := some "true"
    disbn := some "978-0-06-443017-0"
    did := some "1"
    giftToggle := some false
    cells := ["Goodnight Moon", "978-0-06-443017-0", "Margaret Wise Brown",
              "bedtime", "2024-01-01", "Grandma", "", "yes", "buttons"]
    display := ""
    editing := false
    origVals := none }

/-- A second concrete row, not live, used by the witnesses. -/
def sampleRow2 : Row :=
  { dtitle := some "The Very Hungry Caterpillar"
    dauthors := some "Eric Carle"
    dtags := some "animals"
    dgiftFrom := some ""
    dlive := some "false"
    disbn := some "9780241003008"
    did := some "2"
    giftToggle := some false
    cells := ["The Very Hungry Caterpillar", "9780241003008", "Eric Carle",
              "animals", "2024-02-02", "", "", "no", "buttons"]
    display := ""
    editing := false
    origVals := none }

/-- A concrete editing state used by the witnesses. -/
def sampleState : EditState := { rows := [sampleRow, sampleRow2], editingRow := none }

/-- `normalizeIsbn` on a present string is just the digit filter: the
empty-string branch returns the same value the filter would. -/
lemma normalizeIsbn_some (v : String) :
    normalizeIsbn (some v) = ⟨v.data.filter (fun c => c.isDigit)⟩ := by
  by_cases h : v = ""
  · subst h; rfl
  · simp [normalizeIsbn, h]

/-- C8: `normalizeIsbn` is total, its output consists only of decimal
digits, it is idempotent, and it maps `null`/`undefined` (here `none`)
and the empty string to the empty string. -/
theorem claim_c8_normalizeIsbn (s : Option String) :
    (normalizeIsbn s).data.all (fun c => c.isDigit) = true ∧
    normalizeIsbn (some (normalizeIsbn s)) = normalizeIsbn s ∧
    normalizeIsbn none = "" ∧ normalizeIsbn (some "") = "" := by
  refine ⟨?_, ?_, rfl, rfl⟩
  · cases s with
    | none => rfl
    | some v =>
        rw [normalizeIsbn_some]
        simp [List.all_eq_true, List.mem_filter]
  · cases s with
    | none => rfl
    | some v =>
        rw [normalizeIsbn_some, normalizeIsbn_some]
        simp [List.filter_filter]

/-- C7: `filterRows` issues no fetch, keeps the number and order of
rows, and changes nothing about a row but its `display` style. -/
theorem claim_c7_filterRows_frame (search : Option String) (liveOnly : Option Bool)
    (rows : List Row) :
    (filterRows search liveOnly rows).2 = [] ∧
    (filterRows search liveOnly rows).1.length = rows.length ∧
    (filterRows search liveOnly rows).1.map eraseDisplay = rows.map eraseDisplay := by
  refine ⟨rfl, by simp [filterRows], ?_⟩
  show (rows.map _).map eraseDisplay = rows.map eraseDisplay
  rw [List.map_map]
  apply List.map_congr_left
  intro r _
  simp only [Function.comp, filterRow]
  split <;> rfl

/-- The display outcome of `filterRow` as a proposition: shown exactly
when (query empty or one of title/authors/tags contains it) and (the
live-only box is unchecked or the row's `data-live` lower-cases to
"true"). -/
lemma filterRow_display (query : String) (b : Bool) (r : Row) :
    (((filterRow query b r).display = "") ↔
      ((query = "" ∨ jsIncludes (jsToLower (r.dtitle.getD "")) query = true ∨
        jsIncludes (jsToLower (r.dauthors.getD "")) query = true ∨
        jsIncludes (jsToLower (r.dtags.getD "")) query = true) ∧
       (b = false ∨ jsToLower (r.dlive.getD "") = "true"))) ∧
    (((filterRow query b r).display = "none") ↔
      ¬ ((query = "" ∨ jsIncludes (jsToLower (r.dtitle.getD "")) query = true ∨
          jsIncludes (jsToLower (r.dauthors.getD "")) query = true ∨
          jsIncludes (jsToLower (r.dtags.getD "")) query = true) ∧
         (b = false ∨ jsToLower (r.dlive.getD "") = "true"))) := by
  simp only [filterRow]
  split
  · rename_i h
    simp only [Bool.and_eq_true, Bool.or_eq_true, beq_iff_eq, Bool.not_eq_true'] at h
    have hP : (query = "" ∨ jsIncludes (jsToLower (r.dtitle.getD "")) query = true ∨
        jsIncludes (jsToLower (r.dauthors.getD "")) query = true ∨
        jsIncludes (jsToLower (r.dtags.getD "")) query = true) ∧
       (b = false ∨ jsToLower (r.dlive.getD "") = "true") := by tauto
    exact ⟨iff_of_true rfl hP, iff_of_false (by simp) (not_not_intro hP)⟩
  · rename_i h
    simp only [Bool.and_eq_true, Bool.or_eq_true, beq_iff_eq, Bool.not_eq_true'] at h
    have hP : ¬ ((query = "" ∨ jsIncludes (jsToLower (r.dtitle.getD "")) query = true ∨
        jsIncludes (jsToLower (r.dauthors.getD "")) query = true ∨
        jsIncludes (jsToLower (r.dtags.getD "")) query = true) ∧
       (b = false ∨ jsToLower (r.dlive.getD "") = "true")) := by tauto
    exact ⟨iff_of_false (by simp) hP, iff_of_true rfl hP⟩

/-- C1: after `filterRows`, a row is shown (empty `display`) exactly
when the trimmed lower-cased query is empty or is a substring of the
row's lower-cased `data-title`, `data-authors` or `data-tags`, and the
live-only box is unchecked or the row's lower-cased `data-live` is
"true"; otherwise its `display` is "none". -/
theorem claim_c1_filterRows (search : Option String) (liveOnly : Option Bool)
    (rows : List Row) (i : Nat) (r : Row) (h : rows.get? i = some r) :
    ∃ r', (filterRows search liveOnly rows).1.get? i = some r' ∧
      ((r'.display = "") ↔
        ((queryOf search = "" ∨
          jsIncludes (jsToLower (r.dtitle.getD "")) (queryOf search) = true ∨
          jsIncludes (jsToLower (r.dauthors.getD "")) (queryOf search) = true ∨
          jsIncludes (jsToLower (r.dtags.getD "")) (queryOf search) = true) ∧
         (liveOnly.getD false = false ∨ jsToLower (r.dlive.getD "") = "true"))) ∧
      ((r'.display = "none") ↔
        ¬ ((queryOf search = "" ∨
            jsIncludes (jsToLower (r.dtitle.getD "")) (queryOf search) = true ∨
            jsIncludes (jsToLower (r.dauthors.getD "")) (queryOf search) = true ∨
            jsIncludes (jsToLower (r.dtags.getD "")) (queryOf search) = true) ∧
           (liveOnly.getD false = false ∨ jsToLower (r.dlive.getD "") = "true"))) := by
  refine ⟨filterRow (queryOf search) (liveOnly.getD false) r, ?_, ?_, ?_⟩
  · show (rows.map _).get? i = _
    rw [List.get?_map, h]
    rfl
  · exact (filterRow_display (queryOf search) (liveOnly.getD false) r).1
  · exact (filterRow_display (queryOf search) (liveOnly.getD false) r).2

/-- Witness for C1 at a concrete table: live-only on, query " MOON "
(trims and lower-cases to "moon", a substring of the first row's
title). -/
theorem claim_c1_filterRows_witness :
    ∃ r', (filterRows (some " MOON ") (some true) [sampleRow, sampleRow2]).1.get? 0 = some r' ∧
      ((r'.display = "") ↔
        ((queryOf (some " MOON ") = "" ∨
          jsIncludes (jsToLower (sampleRow.dtitle.getD "")) (queryOf (some " MOON ")) = true ∨
          jsIncludes (jsToLower (sampleRow.dauthors.getD "")) (queryOf (some " MOON ")) = true ∨
          jsIncludes (jsToLower (sampleRow.dtags.getD "")) (queryOf (some " MOON ")) = true) ∧
         ((some true).getD false = false ∨ jsToLower (sampleRow.dlive.getD "") = "true"))) ∧
      ((r'.display = "none") ↔
        ¬ ((queryOf (some " MOON ") = "" ∨
            jsIncludes (jsToLower (sampleRow.dtitle.getD "")) (queryOf (some " MOON ")) = true ∨
            jsIncludes (jsToLower (sampleRow.dauthors.getD "")) (queryOf (some " MOON ")) = true ∨
            jsIncludes (jsToLower (sampleRow.dtags.getD "")) (queryOf (some " MOON ")) = true) ∧
           ((some true).getD false = false ∨ jsToLower (sampleRow.dlive.getD "") = "true"))) :=
  claim_c1_filterRows (some " MOON ") (some true) [sampleRow, sampleRow2] 0 sampleRow rfl

/-- C6: the `.then` of the live-toggle POST writes "true"/"false" into
the row's `data-live` according to the new checkbox state and re-runs
`filterRows` over the whole table; with the live-only filter on, a row
toggled off ends up hidden. -/
theorem claim_c6_liveToggle (search : Option String) (liveOnly : Option Bool)
    (rows : List Row) (i : Nat) (b : Bool) (r : Row) (h : rows.get? i = some r) :
    ∃ r', (liveToggleThen i b search liveOnly rows).get? i = some r' ∧
      r'.dlive = some (jsBoolStr b) ∧
      ((r'.dlive = some "true") ↔ b = true) ∧
      liveToggleThen i b search liveOnly rows =
        (filterRows search liveOnly (rows.set i { r with dlive := some (jsBoolStr b) })).1 ∧
      (liveOnly = some true → b = false → r'.display = "none") := by
  have hset : (rows.set i { r with dlive := some (jsBoolStr b) }).get? i =
      some { r with dlive := some (jsBoolStr b) } := by
    have hlt : i < rows.length := (List.get?_eq_some.mp h).1
    exact List.get?_set_eq_of_lt _ (by simpa using hlt)
  have hthen : liveToggleThen i b search liveOnly rows =
      (filterRows search liveOnly (rows.set i { r with dlive := some (jsBoolStr b) })).1 := by
    simp only [liveToggleThen, h]
  refine ⟨filterRow (queryOf search) (liveOnly.getD false) { r with dlive := some (jsBoolStr b) },
    ?_, ?_, ?_, hthen, ?_⟩
  · rw [hthen]
    show (List.map _ _).get? i = _
    rw [List.get?_map, hset]
    rfl
  · simp only [filterRow]
    split <;> rfl
  · simp only [filterRow]
    cases b <;> (split <;> simp [jsBoolStr])
  · intro hlo hb
    subst hb
    subst hlo
    simp only [filterRow]
    split
    · rename_i hc
      rw [Bool.and_eq_true] at hc
      exact absurd hc.2 (by decide)
    · rfl

/-- Witness for C6: the first sample row is toggled off while the
live-only filter is on. -/
theorem claim_c6_liveToggle_witness :
    ∃ r', (liveToggleThen 0 false none (some true) [sampleRow, sampleRow2]).get? 0 = some r' ∧
      r'.dlive = some (jsBoolStr false) ∧
      ((r'.dlive = some "true") ↔ false = true) ∧
      liveToggleThen 0 false none (some true) [sampleRow, sampleRow2] =
        (filterRows none (some true)
          ([sampleRow, sampleRow2].set 0 { sampleRow with dlive := some (jsBoolStr false) })).1 ∧
      (some true = some true → false = false → r'.display = "none") :=
  claim_c6_liveToggle none (some true) [sampleRow, sampleRow2] 0 false sampleRow rfl

/-- C5: every request any handler can emit is a POST to `/update/:id`,
`/read/:id` or `/read_by_isbn`. -/
theorem claim_c5_endpoints (e : Event) (rows : List Row) (req : Request)
    (h : req ∈ requestsOf e rows) :
    req.method = "POST" ∧
    ((∃ id, req.url = "/update/" ++ id) ∨ (∃ id, req.url = "/read/" ++ id) ∨
      req.url = "/read_by_isbn") := by
  cases e with
  | defaultScanDecoded t =>
      simp only [requestsOf, defaultOnDecoded] at h
      rcases hm : lastMatch (normalizeIsbn (some t)) rows with - | m <;> rw [hm] at h
      · simp at h
      · simp at h
        subst h
        exact ⟨rfl, Or.inr (Or.inr rfl)⟩
  | scanMarkReadDecoded t =>
      simp only [requestsOf] at h
      simp at h
      subst h
      exact ⟨rfl, Or.inr (Or.inr rfl)⟩
  | liveToggleChanged i b =>
      simp only [requestsOf] at h
      rcases hg : rows.get? i with - | r <;> rw [hg] at h
      · simp at h
      · simp at h
        subst h
        exact ⟨rfl, Or.inl ⟨jsStringOf r.did, rfl⟩⟩
  | markReadClicked i =>
      simp only [requestsOf] at h
      rcases hg : rows.get? i with - | r <;> rw [hg] at h
      · simp at h
      · simp at h
        subst h
        exact ⟨rfl, Or.inr (Or.inl ⟨jsStringOf r.did, rfl⟩)⟩
  | saveEditClicked i v =>
      simp only [requestsOf] at h
      rcases hg : rows.get? i with - | r <;> rw [hg] at h
      · simp at h
      · simp at h
        subst h
        exact ⟨rfl, Or.inl ⟨jsStringOf r.did, rfl⟩⟩
  | searchInputEvent => simp [requestsOf] at h
  | liveOnlyChanged => simp [requestsOf] at h
  | editClicked i => simp [requestsOf] at h
  | cancelClicked i => simp [requestsOf] at h
  | startScanClicked => simp [requestsOf] at h
  | stopScanClicked => simp [requestsOf] at h
  | giftCheckboxChanged => simp [requestsOf] at h

/-- Witness for C5: the mark-read button on the first sample row. -/
theorem claim_c5_endpoints_witness :
    ({ method := "POST", url := "/read/1", body := none } : Request).method = "POST" ∧
    ((∃ id, ({ method := "POST", url := "/read/1", body := none } : Request).url = "/update/" ++ id) ∨
     (∃ id, ({ method := "POST", url := "/read/1", body := none } : Request).url = "/read/" ++ id) ∨
     ({ method := "POST", url := "/read/1", body := none } : Request).url = "/read_by_isbn") :=
  claim_c5_endpoints (Event.markReadClicked 0) [sampleRow, sampleRow2]
    { method := "POST", url := "/read/1", body := none } (by decide)

/-- Counterexample to C4: when the live-toggle POST resolves with a
failed response (`ok` false, e.g. a 500 with body "500"), the handler
does not just show a message or reload — it writes the row's
`data-live` and re-runs the filter, and shows no message at all. -/
theorem claim_c4_counterexample :
    liveToggleCont 0 true (Outcome.notOk "500") =
      [Effect.setRowLive 0 "true", Effect.refilter] ∧
    benignEffect (Effect.setRowLive 0 "true") = false ∧
    (Effect.showMessage "x") ∉ liveToggleCont 0 true (Outcome.notOk "500") := by
  exact ⟨rfl, rfl, by decide⟩

/-- C4 as amended: the two `/read_by_isbn` continuations, the mark-read
continuation and the save continuation react to every outcome —
failures included — only by showing a message or reloading; the
live-toggle continuation instead ignores the response status: any
resolved response (even a failed one) makes it write `data-live` and
re-filter, and a rejected fetch produces no reaction at all. -/
theorem claim_c4_amended :
    (∀ o : Outcome, ∀ eff ∈ readByIsbnCont o, benignEffect eff = true) ∧
    (∀ o : Outcome, ∀ eff ∈ markReadCont o, benignEffect eff = true) ∧
    (∀ o : Outcome, ∀ eff ∈ saveEditCont o, benignEffect eff = true) ∧
    (∀ (i : Nat) (b : Bool) (txt : String),
      liveToggleCont i b (Outcome.notOk txt) =
        [Effect.setRowLive i (jsBoolStr b), Effect.refilter]) ∧
    (∀ (i : Nat) (b : Bool), liveToggleCont i b Outcome.netErr = []) := by
  refine ⟨?_, ?_, ?_, fun i b txt => rfl, fun i b => rfl⟩ <;>
    · intro o eff h
      cases o <;> simp [readByIsbnCont, markReadCont, saveEditCont] at h <;>
        (subst h; rfl)

/-- Witness for the amended C4: a failed save only shows a message. -/
theorem claim_c4_amended_witness :
    benignEffect (Effect.showMessage "Failed to save changes.") = true :=
  claim_c4_amended.2.2.1 (Outcome.notOk "500")
    (Effect.showMessage "Failed to save changes.") (by decide)

/-- If the `forEach` accumulation ends on `some m`, then `m` either is
a matching row of the list or was the accumulator to begin with. -/
lemma lastMatch_foldl_some (scanned : String) :
    ∀ (rows : List Row) (acc : Option Row) (m : Row),
      rows.foldl (fun matched row => if scanMatches scanned row then some row else matched)
        acc = some m →
      (m ∈ rows ∧ scanMatches scanned m = true) ∨ acc = some m := by
  intro rows
  induction rows with
  | nil => exact fun acc m h => Or.inr h
  | cons r t ih =>
      intro acc m h
      rw [List.foldl_cons] at h
      rcases ih _ m h with ⟨hm, hc⟩ | hacc
      · exact Or.inl ⟨List.mem_cons_of_mem _ hm, hc⟩
      · by_cases hr : scanMatches scanned r = true
        · rw [if_pos hr] at hacc
          cases hacc
          exact Or.inl ⟨List.mem_cons_self _ _, hr⟩
        · rw [if_neg hr] at hacc
          exact Or.inr hacc

/-- If the `forEach` accumulation ends on `none`, no row matched (and
the accumulator was `none`). -/
lemma lastMatch_foldl_none (scanned : String) :
    ∀ (rows : List Row) (acc : Option Row),
      rows.foldl (fun matched row => if scanMatches scanned row then some row else matched)
        acc = none →
      acc = none ∧ ∀ r ∈ rows, scanMatches scanned r = false := by
  intro rows
  induction rows with
  | nil => exact fun acc h => ⟨h, by simp⟩
  | cons r t ih =>
      intro acc h
      rw [List.foldl_cons] at h
      rcases ih _ h with ⟨hstep, hall⟩
      by_cases hr : scanMatches scanned r = true
      · rw [if_pos hr] at hstep
        exact absurd hstep (by simp)
      · rw [if_neg hr] at hstep
        refine ⟨hstep, ?_⟩
        intro x hx
        rcases List.mem_cons.mp hx with hx | hx
        · subst hx
          exact Bool.not_eq_true _ ▸ (by simpa using hr)
        · exact hall x hx

/-- C3: in the default scan mode, when the digit-normalized decoded
text is non-empty and equals the digit-normalized `data-isbn` of some
row, the script stops the scanner and POSTs that row's raw `data-isbn`
to `/read_by_isbn` (no message, no write to the ISBN input); otherwise
it writes the raw decoded text into the Add form's ISBN input, stops
the scanner, shows the informational message, and issues no request. -/
theorem claim_c3_defaultScan (decodedText : String) (rows : List Row) :
    (((normalizeIsbn (some decodedText) ≠ "") ∧
        ∃ r ∈ rows, rowNormIsbn r = normalizeIsbn (some decodedText)) →
      ∃ r ∈ rows, rowNormIsbn r = normalizeIsbn (some decodedText) ∧
        defaultOnDecoded decodedText rows =
          { isbnField := none, stopped := true,
            requests := [{ method := "POST", url := "/read_by_isbn",
                           body := some ("isbn=" ++ encodeURIComponent (jsOrStr r.disbn "")) }],
            message := none }) ∧
    ((¬ ((normalizeIsbn (some decodedText) ≠ "") ∧
          ∃ r ∈ rows, rowNormIsbn r = normalizeIsbn (some decodedText))) →
      defaultOnDecoded decodedText rows =
        { isbnField := some decodedText, stopped := true, requests := [],
          message := some "Scanned ISBN not found in your library — filled Add form." }) := by
  rcases hL : lastMatch (normalizeIsbn (some decodedText)) rows with - | m
  · refine ⟨?_, ?_⟩
    · rintro ⟨hne, r, hr, hnorm⟩
      exfalso
      have hall := (lastMatch_foldl_none _ rows none hL).2 r hr
      rw [scanMatches] at hall
      simp only [hnorm] at hall
      simp [hne] at hall
    · intro _
      simp only [defaultOnDecoded, hL]
  · have hm := lastMatch_foldl_some _ rows none m hL
    simp only [reduceCtorEq, or_false] at hm
    obtain ⟨hmem, hmatch⟩ := hm
    rw [scanMatches] at hmatch
    simp only [Bool.and_eq_true, bne_iff_ne, ne_eq, beq_iff_eq] at hmatch
    obtain ⟨⟨-, hsc⟩, heq⟩ := hmatch
    refine ⟨?_, ?_⟩
    · intro _
      exact ⟨m, hmem, heq, by simp only [defaultOnDecoded, hL]⟩
    · intro hn
      exact absurd ⟨hsc, m, hmem, heq⟩ hn

/-- Witness for C3: scanning "9780241003008" matches the second sample
row, whose raw `data-isbn` is that same digit string. -/
theorem claim_c3_defaultScan_witness :
    ∃ r ∈ [sampleRow, sampleRow2],
      rowNormIsbn r = normalizeIsbn (some "9780241003008") ∧
      defaultOnDecoded "9780241003008" [sampleRow, sampleRow2] =
        { isbnField := none, stopped := true,
          requests := [{ method := "POST", url := "/read_by_isbn",
                         body := some ("isbn=" ++ encodeURIComponent (jsOrStr r.disbn "")) }],
          message := none } :=
  (claim_c3_defaultScan "9780241003008" [sampleRow, sampleRow2]).1 (by decide)

/-- A global character replacement distributes over concatenation. -/
lemma replList_append (c : Char) (rep : List Char) (l1 l2 : List Char) :
    replList c rep (l1 ++ l2) = replList c rep l1 ++ replList c rep l2 := by
  simp [replList]

/-- The five sequential replacements distribute over concatenation. -/
lemma escapeList_append (l1 l2 : List Char) :
    escapeList (l1 ++ l2) = escapeList l1 ++ escapeList l2 := by
  simp [escapeList, replList_append]

/-- On a single character, the five sequential replacements agree with
the per-character view `escCharL`. -/
lemma escapeList_singleton (c : Char) : escapeList [c] = escCharL c := by
  by_cases h1 : c = '&'
  · subst h1; decide
  by_cases h2 : c = '"'
  · subst h2; decide
  by_cases h3 : c = aposChar
  · subst h3; decide
  by_cases h4 : c = '<'
  · subst h4; decide
  by_cases h5 : c = '>'
  · subst h5; decide
  simp [escapeList, replList, escCharL, h1, h2, h3, h4, h5]

/-- `escapeList` is the concatenation of the per-character images. -/
lemma escapeList_eq_flatMap : ∀ l : List Char, escapeList l = l.flatMap escCharL := by
  intro l
  induction l with
  | nil => rfl
  | cons c t ih =>
      have h : escapeList (c :: t) = escapeList [c] ++ escapeList t := by
        rw [show (c :: t) = [c] ++ t from rfl, escapeList_append]
      rw [h, escapeList_singleton, ih, List.flatMap_cons]

set_option maxHeartbeats 1000000 in
/-- The decoder passes a non-ampersand head character through. -/
lemma unescapeChars_cons_ne (c : Char) (r : List Char) (h : c ≠ '&') :
    unescapeChars (c :: r) = c :: unescapeChars r := by
  rw [unescapeChars.eq_def]
  split
  all_goals simp_all

/-- The decoder turns the amp entity back into an ampersand. -/
lemma unescape_amp (r : List Char) :
    unescapeChars ('&' :: 'a' :: 'm' :: 'p' :: ';' :: r) = '&' :: unescapeChars r := by
  simp [unescapeChars]

/-- The decoder turns the quot entity back into a double quote. -/
lemma unescape_quot (r : List Char) :
    unescapeChars ('&' :: 'q' :: 'u' :: 'o' :: 't' :: ';' :: r) = '"' :: unescapeChars r := by
  simp [unescapeChars]

/-- The decoder turns the 39 entity back into an apostrophe. -/
lemma unescape_apos (r : List Char) :
    unescapeChars ('&' :: '#' :: '3' :: '9' :: ';' :: r) = aposChar :: unescapeChars r := by
  simp [unescapeChars]

/-- The decoder turns the lt entity back into a less-than sign. -/
lemma unescape_lt (r : List Char) :
    unescapeChars ('&' :: 'l' :: 't' :: ';' :: r) = '<' :: unescapeChars r := by
  simp [unescapeChars]

/-- The decoder turns the gt entity back into a greater-than sign. -/
lemma unescape_gt (r : List Char) :
    unescapeChars ('&' :: 'g' :: 't' :: ';' :: r) = '>' :: unescapeChars r := by
  simp [unescapeChars]

/-- Decoding inverts the per-character escaping. -/
lemma unescape_escape : ∀ l : List Char, unescapeChars (l.flatMap escCharL) = l := by
  intro l
  induction l with
  | nil => simp [unescapeChars]
  | cons c t ih =>
      rw [List.flatMap_cons]
      by_cases h1 : c = '&'
      · subst h1
        show unescapeChars ('&' :: 'a' :: 'm' :: 'p' :: ';' :: t.flatMap escCharL) = _
        rw [unescape_amp, ih]
      by_cases h2 : c = '"'
      · subst h2
        show unescapeChars ('&' :: 'q' :: 'u' :: 'o' :: 't' :: ';' :: t.flatMap escCharL) = _
        rw [unescape_quot, ih]
      by_cases h3 : c = aposChar
      · subst h3
        show unescapeChars ('&' :: '#' :: '3' :: '9' :: ';' :: t.flatMap escCharL) = _
        rw [unescape_apos, ih]
      by_cases h4 : c = '<'
      · subst h4
        show unescapeChars ('&' :: 'l' :: 't' :: ';' :: t.flatMap escCharL) = _
        rw [unescape_lt, ih]
      by_cases h5 : c = '>'
      · subst h5
        show unescapeChars ('&' :: 'g' :: 't' :: ';' :: t.flatMap escCharL) = _
        rw [unescape_gt, ih]
      have hc : escCharL c = [c] := by simp [escCharL, h1, h2, h3, h4, h5]
      rw [hc, List.singleton_append, unescapeChars_cons_ne c _ h1, ih]

/-- Every per-character image is a good chunk. -/
lemma goodChunk_escCharL (c : Char) : goodChunk (escCharL c) = true := by
  by_cases h1 : c = '&'
  · subst h1; decide
  by_cases h2 : c = '"'
  · subst h2; decide
  by_cases h3 : c = aposChar
  · subst h3; decide
  by_cases h4 : c = '<'
  · subst h4; decide
  by_cases h5 : c = '>'
  · subst h5; decide
  simp [escCharL, goodChunk, beq_iff_eq, h1, h2, h3, h4, h5]

/-- No per-character image contains a raw `<`, `>`, `"` or apostrophe. -/
lemma escCharL_no_raw (c : Char) :
    (escCharL c).all (fun x => !(x == '<' || x == '>' || x == '"' || x == aposChar)) = true := by
  by_cases h1 : c = '&'
  · subst h1; decide
  by_cases h2 : c = '"'
  · subst h2; decide
  by_cases h3 : c = aposChar
  · subst h3; decide
  by_cases h4 : c = '<'
  · subst h4; decide
  by_cases h5 : c = '>'
  · subst h5; decide
  simp [escCharL, h1, h2, h3, h4, h5]

/-- `all` over a flat map checks the predicate chunk by chunk. -/
lemma all_flatMap (p : Char → Bool) (f : Char → List Char) :
    ∀ l : List Char, ((l.flatMap f).all p) = l.all (fun c => (f c).all p) := by
  intro l
  induction l with
  | nil => rfl
  | cons c t ih => rw [List.flatMap_cons, List.all_append, List.all_cons, ih]

/-- C10: `escapeHtml`'s output contains no raw `<`, `>`, `"` or
apostrophe; it decomposes into chunks that are either one of the five
entities or a single unescaped-safe character (so every `&` starts an
entity); and decoding the five entities recovers the input exactly —
in particular the output contains no `"`, so interpolating it into a
double-quoted attribute value cannot terminate the attribute. -/
theorem claim_c10_escapeHtml (s : String) :
    (escapeHtml s).data.all
      (fun x => !(x == '<' || x == '>' || x == '"' || x == aposChar)) = true ∧
    (∃ chunks : List (List Char),
      (escapeHtml s).data = chunks.flatten ∧ chunks.all goodChunk = true) ∧
    unescapeChars (escapeHtml s).data = s.data := by
  have hdata : (escapeHtml s).data = s.data.flatMap escCharL := escapeList_eq_flatMap s.data
  refine ⟨?_, ⟨s.data.map escCharL, ?_, ?_⟩, ?_⟩
  · rw [hdata, all_flatMap]
    exact List.all_eq_true.mpr (fun x _ => escCharL_no_raw x)
  · rw [hdata, List.flatMap_def]
  · exact List.all_eq_true.mpr (fun x hx => by
      obtain ⟨c, -, rfl⟩ := List.mem_map.mp hx
      exact goodChunk_escCharL c)
  · rw [hdata]
    exact unescape_escape s.data

/-- Cancelling one row leaves every other row untouched. -/
lemma cancelEditing_get?_ne (j i : Nat) (s : EditState) (h : i ≠ j) :
    (cancelEditing j s).rows.get? i = s.rows.get? i := by
  rcases hg : s.rows.get? j with - | r
  · unfold cancelEditing
    rw [hg]
  · unfold cancelEditing
    rw [hg]
    dsimp only
    by_cases he : r.editing = true
    · rw [if_pos he]
      exact List.get?_set_ne _ _ (fun hh => h hh.symm)
    · rw [if_neg he]

/-- The pre-cancel step of `enableEditing` leaves the target row
untouched. -/
lemma preCancel_get? (i : Nat) (s : EditState) :
    (preCancel i s).rows.get? i = s.rows.get? i := by
  unfold preCancel
  cases hE : s.editingRow with
  | none => rfl
  | some j =>
      dsimp only
      by_cases hji : j ≠ i
      · rw [if_pos hji]
        exact cancelEditing_get?_ne j i s (fun hh => hji hh.symm)
      · rw [if_neg hji]

/-- Restoring captured values of the same length as the cell list
reproduces exactly the captured values. -/
lemma restoreCells_full : ∀ (cs os : List String), os.length = cs.length →
    restoreCells cs os = os := by
  intro cs
  induction cs with
  | nil =>
      intro os h
      cases os with
      | nil => rfl
      | cons o ot => simp at h
  | cons c ct ih =>
      intro os h
      cases os with
      | nil => simp at h
      | cons o ot =>
          show restoreCells (c :: ct) (o :: ot) = o :: ot
          simp only [restoreCells]
          rw [ih ot (by simpa using h)]

/-- C2: enabling editing on a row that is not being edited and then
cancelling it restores every cell's `innerHTML` and removes the
`editing` class. -/
theorem claim_c2_editCancelRoundTrip (s : EditState) (i : Nat) (r : Row) (s' : EditState)
    (h1 : s.rows.get? i = some r) (h2 : r.editing = false)
    (h3 : enableEditing i s = some s') :
    ∃ r', (cancelEditing i s').rows.get? i = some r' ∧
      r'.cells = r.cells ∧ r'.editing = false := by
  have hg : (preCancel i s).rows.get? i = some r := by rw [preCancel_get?]; exact h1
  rw [enableEditing] at h3
  simp only [hg] at h3
  rw [h2] at h3
  simp only [Bool.false_eq_true, if_false] at h3
  split at h3
  case isFalse => simp at h3
  case isTrue h9 =>
  rw [Option.some.injEq] at h3
  subst h3
  have hlt : i < (preCancel i s).rows.length := (List.get?_eq_some.mp hg).1
  have hget : ((preCancel i s).rows.set i (editedRow r)).get? i = some (editedRow r) :=
    List.get?_set_eq_of_lt _ hlt
  have hcells : restoreCells (editedRow r).cells ((editedRow r).origVals.getD []) = r.cells := by
    have : (editedRow r).origVals.getD [] = r.cells := rfl
    rw [this]
    apply restoreCells_full
    show r.cells.length = (editedCells r).length
    simp [editedCells, List.length_set]
  have hrow : cancelledRow (editedRow r) =
      { (editedRow r) with cells := r.cells, editing := false } := by
    unfold cancelledRow
    rw [hcells]
  refine ⟨{ (editedRow r) with cells := r.cells, editing := false }, ?_, rfl, rfl⟩
  unfold cancelEditing
  dsimp only
  rw [hget]
  dsimp only
  rw [if_pos (show (editedRow r).editing = true from rfl)]
  rw [hrow]
  have hlen2 : i < ((preCancel i s).rows.set i (editedRow r)).length := by
    rw [List.length_set]; exact hlt
  exact List.get?_set_eq_of_lt _ hlen2

/-- Replacing one element changes the editing count by swapping the
old element's contribution for the new one's. -/
lemma countP_set_add :
    ∀ (l : List Row) (i : Nat) (r x : Row), l.get? i = some r →
      (l.set i x).countP (fun q => q.editing) + (if r.editing = true then 1 else 0) =
      l.countP (fun q => q.editing) + (if x.editing = true then 1 else 0) := by
  intro l
  induction l with
  | nil => intro i r x h; simp at h
  | cons a t ih =>
      intro i r x h
      cases i with
      | zero =>
          rw [show (a :: t).get? 0 = some a from rfl, Option.some.injEq] at h
          subst h
          show ((x :: t).countP _) + _ = _
          rw [List.countP_cons, List.countP_cons]
          omega
      | succ n =>
          have h' : t.get? n = some r := h
          show ((a :: t.set n x).countP _) + _ = _
          rw [List.countP_cons, List.countP_cons]
          have := ih n r x h'
          omega

/-- A row with the editing class makes the editing count positive. -/
lemma editing_mem_pos (l : List Row) (i : Nat) (r : Row) (h : l.get? i = some r)
    (he : r.editing = true) : 0 < l.countP (fun q => q.editing) :=
  List.countP_pos.mpr ⟨r, List.get?_mem h, he⟩

/-- When at most one row has the editing class, two indices holding
editing rows coincide. -/
lemma countP_le_one_unique :
    ∀ (l : List Row), l.countP (fun q => q.editing) ≤ 1 →
      ∀ (i j : Nat) (ri rj : Row), l.get? i = some ri → ri.editing = true →
        l.get? j = some rj → rj.editing = true → i = j := by
  intro l
  induction l with
  | nil => intro _ i j ri rj hi _ _ _; simp at hi
  | cons a t ih =>
      intro hle i j ri rj hi hei hj hej
      rw [List.countP_cons] at hle
      cases i with
      | zero =>
          cases j with
          | zero => rfl
          | succ m =>
              exfalso
              rw [show (a :: t).get? 0 = some a from rfl, Option.some.injEq] at hi
              subst hi
              have h1 : (if (fun q : Row => q.editing) a = true then 1 else 0) = 1 := by
                simp [hei]
              rw [h1] at hle
              have h2 := editing_mem_pos t m rj hj hej
              omega
      | succ n =>
          cases j with
          | zero =>
              exfalso
              rw [show (a :: t).get? 0 = some a from rfl, Option.some.injEq] at hj
              subst hj
              have h1 : (if (fun q : Row => q.editing) a = true then 1 else 0) = 1 := by
                simp [hej]
              rw [h1] at hle
              have h2 := editing_mem_pos t n ri hi hei
              omega
          | succ m =>
              have h1 : t.countP (fun q => q.editing) ≤ 1 := by omega
              have := ih h1 n m ri rj hi hei hj hej
              rw [this]

/-- The cancelled row no longer carries the editing class. -/
lemma cancelledRow_not_editing (r : Row) : (cancelledRow r).editing = false := rfl

/-- Reading the invariant when `editingRow` is null. -/
lemma editInv_none (s : EditState) (hE : s.editingRow = none) (hInv : editInv s = true) :
    editCount s.rows = 0 := by
  unfold editInv at hInv
  rw [hE] at hInv
  dsimp only at hInv
  simpa using hInv

/-- Reading the invariant when `editingRow` points at a row. -/
lemma editInv_some (s : EditState) (k : Nat) (hE : s.editingRow = some k)
    (hInv : editInv s = true) :
    hasEditingAt s.rows k = true ∧ editCount s.rows = 1 := by
  unfold editInv at hInv
  rw [hE] at hInv
  dsimp only at hInv
  rw [Bool.and_eq_true] at hInv
  exact ⟨hInv.1, by simpa using hInv.2⟩

/-- Establishing the invariant with `editingRow` null. -/
lemma editInv_mk_none (s : EditState) (hE : s.editingRow = none)
    (h0 : editCount s.rows = 0) : editInv s = true := by
  unfold editInv
  rw [hE]
  dsimp only
  rw [h0]
  decide

/-- Establishing the invariant with `editingRow` pointing at a row. -/
lemma editInv_mk_some (s : EditState) (k : Nat) (hE : s.editingRow = some k)
    (h1 : hasEditingAt s.rows k = true) (hc : editCount s.rows = 1) :
    editInv s = true := by
  unfold editInv
  rw [hE]
  dsimp only
  rw [Bool.and_eq_true]
  exact ⟨h1, by rw [hc]; decide⟩

/-- `cancelEditing` preserves the editing invariant. -/
lemma cancelEditing_inv (i : Nat) (s : EditState) (hInv : editInv s = true) :
    editInv (cancelEditing i s) = true := by
  rcases hg : s.rows.get? i with - | r
  · unfold cancelEditing
    rw [hg]
    exact hInv
  · unfold cancelEditing
    rw [hg]
    dsimp only
    by_cases he : r.editing = true
    · rw [if_pos he]
      have hpos := editing_mem_pos s.rows i r hg he
      have hcount1 : s.rows.countP (fun q => q.editing) = 1 := by
        cases hE : s.editingRow with
        | none =>
            have h0 := editInv_none s hE hInv
            unfold editCount at h0
            omega
        | some k =>
            have h1 := (editInv_some s k hE hInv).2
            unfold editCount at h1
            exact h1
      have hset := countP_set_add s.rows i r (cancelledRow r) hg
      rw [if_pos he, cancelledRow_not_editing] at hset
      simp only [Bool.false_eq_true, if_false] at hset
      apply editInv_mk_none _ rfl
      show editCount (s.rows.set i (cancelledRow r)) = 0
      unfold editCount
      omega
    · rw [if_neg he]
      exact hInv

/-- After the pre-cancel step of `enableEditing`, either nothing
changed and `editingRow` was null or already the target row, or the
previously edited row was cancelled and nothing is in editing mode. -/
lemma preCancel_spec (i : Nat) (s : EditState) (hInv : editInv s = true) :
    (preCancel i s = s ∧ (s.editingRow = none ∨ s.editingRow = some i)) ∨
    ((preCancel i s).editingRow = none ∧ editCount (preCancel i s).rows = 0) := by
  unfold preCancel
  cases hE : s.editingRow with
  | none => exact Or.inl ⟨rfl, Or.inl rfl⟩
  | some j =>
      dsimp only
      by_cases hji : j ≠ i
      · rw [if_pos hji]
        right
        obtain ⟨hat, hcnt⟩ := editInv_some s j hE hInv
        unfold hasEditingAt at hat
        rcases hg : s.rows.get? j with - | rj
        · rw [hg] at hat
          simp at hat
        · rw [hg] at hat
          dsimp only at hat
          unfold cancelEditing
          rw [hg]
          dsimp only
          rw [if_pos hat]
          refine ⟨rfl, ?_⟩
          have hset := countP_set_add s.rows j rj (cancelledRow rj) hg
          rw [if_pos hat, cancelledRow_not_editing] at hset
          simp only [Bool.false_eq_true, if_false] at hset
          show editCount (s.rows.set j (cancelledRow rj)) = 0
          unfold editCount at hcnt ⊢
          omega
      · rw [if_neg hji]
        left
        refine ⟨rfl, Or.inr ?_⟩
        rw [not_not.mp hji]

/-- C9: the invariant "at most one row carries the `editing` class and
`editingRow` refers to it" (expressed by `editInv`) is preserved by
every `cancelEditing` and every successful `enableEditing` call, and
`enableEditing` is a no-op on the row already being edited. -/
theorem claim_c9_editingInvariant (s : EditState) (i : Nat) (hInv : editInv s = true) :
    editInv (cancelEditing i s) = true ∧
    (∀ s', enableEditing i s = some s' → editInv s' = true) ∧
    (∀ r, s.rows.get? i = some r → r.editing = true → enableEditing i s = some s) := by
  refine ⟨cancelEditing_inv i s hInv, ?_, ?_⟩
  · intro s' h3
    rw [enableEditing] at h3
    rcases hg : (preCancel i s).rows.get? i with - | r
    · rw [hg] at h3
      simp at h3
    · rw [hg] at h3
      dsimp only at h3
      by_cases he : r.editing = true
      · rw [if_pos he] at h3
        rw [Option.some.injEq] at h3
        subst h3
        rcases preCancel_spec i s hInv with ⟨heq, -⟩ | ⟨hnone, hcnt⟩
        · rw [heq]
          exact hInv
        · exact editInv_mk_none _ hnone hcnt
      · rw [if_neg he] at h3
        by_cases h9 : 9 ≤ r.cells.length
        case neg =>
          rw [if_neg h9] at h3
          simp at h3
        rw [if_pos h9] at h3
        rw [Option.some.injEq] at h3
        subst h3
        have hc0 : editCount (preCancel i s).rows = 0 := by
          rcases preCancel_spec i s hInv with ⟨heq, hor⟩ | ⟨-, hcnt⟩
          · rcases hor with hE | hE
            · have h0 := editInv_none s hE hInv
              rw [heq]
              exact h0
            · exfalso
              have hat := (editInv_some s i hE hInv).1
              unfold hasEditingAt at hat
              rw [heq] at hg
              rw [hg] at hat
              dsimp only at hat
              exact he hat
          · exact hcnt
        have hlt : i < (preCancel i s).rows.length := (List.get?_eq_some.mp hg).1
        have hgetset : ((preCancel i s).rows.set i (editedRow r)).get? i = some (editedRow r) :=
          List.get?_set_eq_of_lt _ hlt
        apply editInv_mk_some _ i rfl
        · unfold hasEditingAt
          show (match ((preCancel i s).rows.set i (editedRow r)).get? i with
            | some q => q.editing
            | none => false) = true
          rw [hgetset]
          rfl
        · have hset := countP_set_add (preCancel i s).rows i r (editedRow r) hg
          rw [if_neg he] at hset
          rw [if_pos (show (editedRow r).editing = true from rfl)] at hset
          show editCount ((preCancel i s).rows.set i (editedRow r)) = 1
          unfold editCount at hc0 ⊢
          omega
  · intro r hr he
    have hE : s.editingRow = some i := by
      cases hE0 : s.editingRow with
      | none =>
          exfalso
          have h0 := editInv_none s hE0 hInv
          have := editing_mem_pos s.rows i r hr he
          unfold editCount at h0
          omega
      | some k =>
          obtain ⟨hat, hcnt⟩ := editInv_some s k hE0 hInv
          unfold hasEditingAt at hat
          rcases hgk : s.rows.get? k with - | rk
          · rw [hgk] at hat
            simp at hat
          · rw [hgk] at hat
            dsimp only at hat
            have hik : i = k := by
              apply countP_le_one_unique s.rows ?_ i k r rk hr he hgk hat
              unfold editCount at hcnt
              omega
            rw [hik]
    have hpc : preCancel i s = s := by
      unfold preCancel
      rw [hE]
      dsimp only
      rw [if_neg (fun hh => hh rfl)]
    rw [enableEditing]
    simp only [hpc, hr]
    rw [if_pos he]

/-- Witness for C9: the invariant holds for the sample table and is
kept by cancelling and enabling editing on the first row. -/
theorem claim_c9_editingInvariant_witness :
    editInv (cancelEditing 0 sampleState) = true ∧
    editInv ((enableEditing 0 sampleState).getD sampleState) = true :=
  ⟨(claim_c9_editingInvariant sampleState 0 (by decide)).1,
   (claim_c9_editingInvariant sampleState 0 (by decide)).2.1
     ((enableEditing 0 sampleState).getD sampleState) (by decide)⟩

/-- Witness for C2: enabling then cancelling editing on the first
sample row restores its nine cells. -/
theorem claim_c2_editCancelRoundTrip_witness :
    ∃ r', (cancelEditing 0 ((enableEditing 0 sampleState).getD sampleState)).rows.get? 0 =
        some r' ∧
      r'.cells = sampleRow.cells ∧ r'.editing = false :=
  claim_c2_editCancelRoundTrip sampleState 0 sampleRow
    ((enableEditing 0 sampleState).getD sampleState) rfl rfl (by decide)
